import Mathlib

/-!
Shallow embedding of the 2048 game engine (`game.py`) and the tabular
Q-learning agent (`agents.py`).  Boards are lists of rows of integers
(`0` = empty cell); Python's mutable objects are modelled by explicit
state passing.  Python `float` arithmetic in the agent is modelled by `ℚ`
(all values appearing are integers and halves, on which IEEE arithmetic
is exact).  Python object identity (used by the default `__eq__`/`__hash__`
of `GameState`, which defines neither) is modelled by an explicit `oid`
field: distinct live objects have distinct ids, and CPython's default
`object.__hash__` is injective on live objects.
-/

abbrev Row := List Int
abbrev Board := List Row

/-- `Game.compress` / `GameState.compress`:
`[num for num in row if num != 0]`. -/
def compress (row : Row) : Row :=
  row.filter (fun num => decide (num ≠ 0))

/-- The loop body of `merge`: for `fuel` iterations starting at index `i`,
if `row[i] == row[i+1]` then add `row[i] * 2` to the score accumulator,
double `row[i]` and zero `row[i+1]`.  `merge` runs it for `len(row) - 1`
iterations, exactly like `for i in range(len(row) - 1)`. -/
def mergeFrom (row : Row) (score : Int) (i : Nat) (fuel : Nat) : Row × Int :=
  match fuel with
  | 0 => (row, score)
  | fuel + 1 =>
    if row.getD i 0 = row.getD (i + 1) 0 then
      mergeFrom ((row.set i (2 * row.getD i 0)).set (i + 1) 0)
        (score + 2 * row.getD i 0) (i + 1) fuel
    else
      mergeFrom row score (i + 1) fuel

/-- `Game.merge` / `GameState.merge`: returns the merged row and the score
delta (the caller adds the delta to `self.score` only when
`update_score=True`; the board transformation does not depend on the flag). -/
def merge (row : Row) : Row × Int :=
  mergeFrom row 0 0 (row.length - 1)

/-- One row of `move_left`: compress, merge, compress again, then pad with
zeros up to the board dimension. -/
def moveRowLeft (dim : Nat) (row : Row) : Row × Int :=
  let compressed_row := compress row
  let (merged_row, ds) := merge compressed_row
  let merged_and_compressed_row := compress merged_row
  (merged_and_compressed_row ++
    List.replicate (dim - merged_and_compressed_row.length) 0, ds)

/-- The row loop of `move_left`: new board, total score delta, and the
`moved` flag (true iff some row changed). -/
def moveLeftRows (dim : Nat) : Board → Board × Int × Bool
  | [] => ([], 0, false)
  | row :: rest =>
    let (r2, ds) := moveRowLeft dim row
    let (b2, ds2, moved) := moveLeftRows dim rest
    (r2 :: b2, ds + ds2, (decide (row ≠ r2)) || moved)

/-- `move_left(update_score)` board action. -/
def moveLeftB (dim : Nat) (b : Board) : Board × Int × Bool :=
  moveLeftRows dim b

/-- Python `zip(*ls)` truncated at the shortest list; `fuel` is the length
of the first list, so the recursion stops exactly when some list runs out. -/
def pyZipAux : Nat → List Row → List Row
  | 0, _ => []
  | fuel + 1, ls =>
    if ls.all (fun l => !l.isEmpty) then
      ls.map (fun l => l.headD 0) :: pyZipAux fuel (ls.map (fun l => l.tail))
    else []

/-- Python `[list(row) for row in zip(*ls)]`. -/
def pyZip (ls : List Row) : List Row :=
  match ls with
  | [] => []
  | l :: rest => pyZipAux l.length (l :: rest)

/-- `rotate_board`: `zip(*reversed(board))`, a 90 degrees clockwise
rotation. -/
def rotate_board (b : Board) : Board :=
  pyZip b.reverse

/-- `move_down`: rotate once, move left, rotate three more times. -/
def moveDownB (dim : Nat) (b : Board) : Board × Int × Bool :=
  let b1 := rotate_board b
  let (b2, ds, moved) := moveLeftB dim b1
  (rotate_board (rotate_board (rotate_board b2)), ds, moved)

/-- `move_up`: rotate three times, move left, rotate once. -/
def moveUpB (dim : Nat) (b : Board) : Board × Int × Bool :=
  let b1 := rotate_board (rotate_board (rotate_board b))
  let (b2, ds, moved) := moveLeftB dim b1
  (rotate_board b2, ds, moved)

/-- `move_right`: rotate twice, move left, rotate twice. -/
def moveRightB (dim : Nat) (b : Board) : Board × Int × Bool :=
  let b1 := rotate_board (rotate_board b)
  let (b2, ds, moved) := moveLeftB dim b1
  (rotate_board (rotate_board b2), ds, moved)

/-- The four directions (`'left'`, `'right'`, `'up'`, `'down'`). -/
inductive Move where
  | left
  | right
  | up
  | down
deriving DecidableEq, BEq, Repr

/-- Dispatch a direction to its board action. -/
def moveB (dim : Nat) (d : Move) (b : Board) : Board × Int × Bool :=
  match d with
  | Move.left => moveLeftB dim b
  | Move.right => moveRightB dim b
  | Move.up => moveUpB dim b
  | Move.down => moveDownB dim b

/-- A well-formed `dim × dim` board. -/
def isBoard (dim : Nat) (b : Board) : Prop :=
  b.length = dim ∧ ∀ r ∈ b, r.length = dim

instance (dim : Nat) (b : Board) : Decidable (isBoard dim b) := by
  unfold isBoard
  infer_instance

/-- Sum of all cell values of a board. -/
def boardSum (b : Board) : Int :=
  (b.map List.sum).sum

/-- `b[i][j]` with 0 outside the board. -/
def cellD (b : Board) (i j : Nat) : Int :=
  (b.getD i []).getD j 0

-- sanity checks (board engine)
example : compress [0, 2, 0, 4] = [2, 4] := by decide
example : merge [2, 2, 2, 2] = ([4, 0, 4, 0], 8) := by decide
example : moveRowLeft 4 [2, 2, 2, 2] = ([4, 4, 0, 0], 8) := by decide
example : rotate_board [[1, 2], [3, 4]] = [[3, 1], [4, 2]] := by decide
example :
    moveRightB 2 [[2, 0], [0, 0]] = ([[0, 2], [0, 0]], 0, true) := by decide
example :
    moveDownB 2 [[2, 0], [0, 0]] = ([[0, 0], [2, 0]], 0, true) := by decide
example :
    moveUpB 2 [[0, 0], [2, 0]] = ([[2, 0], [0, 0]], 0, true) := by decide

/-! ### The `Game` class (live board + score) -/

/-- The mutable fields of the `Game` class that the claims concern
(`dim`, `board`, `score`; the agent reference and goal are external). -/
structure Game where
  dim : Nat
  board : Board
  score : Int
deriving DecidableEq, Repr

/-- `Game.move_left/right/up/down(update_score)`: returns the `moved` flag
and the updated game (score changes only when `update_score` is true). -/
def gMove (d : Move) (update_score : Bool) (g : Game) : Bool × Game :=
  let (b2, ds, moved) := moveB g.dim d g.board
  (moved, { g with board := b2, score := if update_score then g.score + ds else g.score })

/-- `Game.simulate_move`: copy the board, run the move with
`update_score=False`, compare, restore the board, return whether it
changed. -/
def simulate_move (d : Move) (g : Game) : Bool × Game :=
  let original_board := g.board
  let (_, g1) := gMove d false g
  let changed := decide (g1.board ≠ original_board)
  (changed, { g1 with board := original_board })

/-- `Game.move_possible`: try the four moves on a scratch copy, resetting
the board before and after each trial; return at the first move that
changes the board. -/
def move_possible (g : Game) : Bool × Game :=
  let original_board := g.board
  let (c1, g1) := simulate_move Move.left { g with board := original_board }
  if c1 then (true, { g1 with board := original_board })
  else
    let (c2, g2) := simulate_move Move.right { g1 with board := original_board }
    if c2 then (true, { g2 with board := original_board })
    else
      let (c3, g3) := simulate_move Move.up { g2 with board := original_board }
      if c3 then (true, { g3 with board := original_board })
      else
        let (c4, g4) := simulate_move Move.down { g3 with board := original_board }
        if c4 then (true, { g4 with board := original_board })
        else (false, { g4 with board := original_board })

/-- How one agent-driven iteration of `Game.play` ends, given the agent's
returned choice: a legal move is applied and a tile is spawned
(`movedTile`), a falsy choice prints "No valid moves available. Game
over." and breaks (`noValidMoves`), an illegal move prints "Invalid move
returned by agent. Game over." and breaks (`invalidMove`). -/
inductive StepRes where
  | movedTile
  | noValidMoves
  | invalidMove
deriving DecidableEq, Repr

/-- The agent branch of the `Game.play` loop body, up to the point where a
new tile would be spawned (tile spawning is random and irrelevant to the
claims). -/
def playStep (g : Game) (choice : Option Move) : StepRes × Game :=
  match choice with
  | none => (StepRes.noValidMoves, g)
  | some m =>
    let (moved, g1) := gMove m true g
    if moved then (StepRes.movedTile, g1) else (StepRes.invalidMove, g1)

/-! ### The `GameState` snapshot class -/

/-- A `GameState` snapshot: deep-copied board, score, dimension.  The
`oid` field models Python object identity (`id()`): every constructed
snapshot is a distinct live object with a fresh id.  `GameState` defines
neither `__eq__` nor `__hash__`, so `==` on snapshots is identity and
`hash` is CPython's id-derived default (injective on live objects). -/
structure PyGameState where
  board : Board
  score : Int
  dim : Nat
  oid : Nat
deriving DecidableEq, Repr

/-- `GameState.valid_moves`: probe the four directions in order
(left, right, up, down) with `update_score=False`, appending the moved
directions, restoring the board after each probe. -/
def valid_moves_st (gs0 : PyGameState) : List Move × PyGameState :=
  let step := fun (acc : List Move × PyGameState) (d : Move) =>
    let (moves, gs) := acc
    let original_board := gs.board
    let (b1, _, moved) := moveB gs.dim d gs.board
    let moves2 := if moved then moves ++ [d] else moves
    let gs1 : PyGameState := { gs with board := b1 }
    (moves2, { gs1 with board := original_board })
  [Move.left, Move.right, Move.up, Move.down].foldl step ([], gs0)

/-- The list of valid moves a caller of `valid_moves` receives. -/
def validMoves (gs : PyGameState) : List Move :=
  (valid_moves_st gs).1

-- sanity checks (Game / GameState)
example : (move_possible ⟨2, [[2, 4], [4, 2]], 7⟩).1 = false := by decide
example : (move_possible ⟨2, [[2, 2], [4, 2]], 7⟩).1 = true := by decide
example : validMoves ⟨[[2, 0], [0, 0]], 0, 2, 0⟩ = [Move.right, Move.down] := by decide
example : validMoves ⟨[[2, 4], [4, 2]], 0, 2, 0⟩ = [] := by decide

/-! ### `GameStateFeatures` and the Q-learning agent (`agents.py`) -/

/-- `GameStateFeatures`: a wrapper holding a `GameState`. -/
structure GameStateFeatures where
  state : PyGameState
deriving DecidableEq, Repr

/-- `GameStateFeatures.__eq__`: delegates to `self.state == other.state`.
`GameState` defines no `__eq__`, so this is Python object identity,
i.e. equality of ids. -/
def gsfBEq (a b : GameStateFeatures) : Bool :=
  a.state.oid == b.state.oid

/-- `GameStateFeatures.__hash__`: `hash(self.state)`; `GameState` defines
no `__hash__`, so this is CPython's default id-derived hash, injective
on live objects — modelled by the id itself. -/
def gsfHash (f : GameStateFeatures) : Nat :=
  f.state.oid

/-- Python `max` on a list of integers (total model; the argument is
nonempty wherever the source calls it). -/
def pyMax (l : List Int) : Int :=
  match l with
  | [] => 0
  | h :: t => t.foldl max h

/-- `GameStateFeatures.largest_in_corner`: the maximum tile equals
`board[0][0]`. -/
def largest_in_corner (f : GameStateFeatures) : Bool :=
  let board := f.state.board
  let max_tile := pyMax (board.map pyMax)
  let corner := cellD board 0 0
  max_tile == corner

/-- A Q-table key: `(state_features, action)`.  Python dict key equality
uses `GameStateFeatures.__eq__` on the first component and string
equality on the second. -/
abbrev QKey := GameStateFeatures × Move

def keyBEq (a b : QKey) : Bool :=
  gsfBEq a.1 b.1 && (a.2 == b.2)

/-- The Q-table: an insertion-ordered dict from keys to
`(q_value, visit_count)` pairs, modelled as an association list in
insertion order. -/
abbrev QTable := List (QKey × (ℚ × Nat))

/-- Python `dict.get(k, (0, 0))`. -/
def dictGet (t : QTable) (k : QKey) : ℚ × Nat :=
  match t.find? (fun e => keyBEq e.1 k) with
  | some e => e.2
  | none => (0, 0)

/-- Python `dict[k] = v`: replace the value at the first (unique) matching
key, keeping the original key object and position, else append. -/
def dictSet (t : QTable) (k : QKey) (v : ℚ × Nat) : QTable :=
  match t with
  | [] => [(k, v)]
  | e :: rest => if keyBEq e.1 k then (e.1, v) :: rest else e :: dictSet rest k v

/-- The `QLearnAgent` state: hyperparameters, episode counter, Q-table
and the pending-trajectory trackers. -/
structure QLearnAgent where
  alpha : ℚ
  epsilon : ℚ
  gamma : ℚ
  maxAttempts : Int
  numTraining : Int
  episodesSoFar : Int
  qTable : QTable
  previousState : List PyGameState
  previousAction : List Move

/-- `QLearnAgent.getQValue`: `self.qTable.get((state, action), (0.0, 0))[0]`. -/
def getQValue (ag : QLearnAgent) (state : GameStateFeatures) (action : Move) : ℚ :=
  (dictGet ag.qTable (state, action)).1

/-- `QLearnAgent.getCount`: `self.qTable.get((state, action), (0.0, 0))[1]`. -/
def getCount (ag : QLearnAgent) (state : GameStateFeatures) (action : Move) : Nat :=
  (dictGet ag.qTable (state, action)).2

/-- `QLearnAgent.maxQValue`: max of the stored values whose key state
compares equal to `state`; `0` if there are none. -/
def maxQValue (ag : QLearnAgent) (state : GameStateFeatures) : ℚ :=
  let qValues := ag.qTable.filterMap
    (fun e => if gsfBEq e.1.1 state then some e.2.1 else none)
  match qValues with
  | [] => 0
  | q :: qs => qs.foldl max q

/-- `QLearnAgent.computeReward`. -/
def computeReward (startState endState : PyGameState) : ℚ :=
  let score_increase : Int := endState.score - startState.score
  let empty_tiles : Nat :=
    (endState.board.map (fun row => row.countP (fun cell => cell == 0))).sum
  let corner_bonus : ℚ :=
    if largest_in_corner ⟨endState⟩ then
      (startState.score : ℚ) + (1 / 2) * (score_increase : ℚ)
    else 0
  (score_increase : ℚ) + corner_bonus + (empty_tiles : ℚ) * 10

/-- `QLearnAgent.learn`: Bellman update of the value, and the visit count
read back and written incremented. -/
def learn (ag : QLearnAgent) (state : GameStateFeatures) (action : Move)
    (reward : ℚ) (nextState : GameStateFeatures) : QLearnAgent :=
  let updatedQValues :=
    (1 - ag.alpha) * getQValue ag state action +
      ag.alpha * (reward + ag.gamma * maxQValue ag nextState)
  let visitCount := (dictGet ag.qTable (state, action)).2
  { ag with qTable := dictSet ag.qTable (state, action) (updatedQValues, visitCount + 1) }

/-- `QLearnAgent.updateCount`. -/
def updateCount (ag : QLearnAgent) (state : GameStateFeatures) (action : Move) :
    QLearnAgent :=
  let (qValue, times) := dictGet ag.qTable (state, action)
  { ag with qTable := dictSet ag.qTable (state, action) (qValue, times + 1) }

/-- `QLearnAgent.explorationFn`: `utility + C / (counts + 1)` with `C = 10`. -/
def explorationFn (utility : ℚ) (counts : Nat) : ℚ :=
  utility + 10 / ((counts : ℚ) + 1)

/-- Python `max(iterable, key=f)`: the first element attaining the
maximum key value. -/
def argmaxFirst (f : Move → ℚ) : List Move → Option Move
  | [] => none
  | m :: ms => some (ms.foldl (fun best a => if f a > f best then a else best) m)

/-- The exploitation branch of `get_move`: the first legal move maximizing
`explorationFn(getQValue, getCount)`. -/
def exploitChoice (ag : QLearnAgent) (sf : GameStateFeatures) (moves : List Move) :
    Move :=
  match argmaxFirst
      (fun action => explorationFn (getQValue ag sf action) (getCount ag sf action))
      moves with
  | some a => a
  | none => Move.left

/-- The epsilon-greedy branch of `get_move`: `r` is the `random.random()`
draw in `[0, 1)` and `pick` selects `random.choice(moves)`. -/
def chooseAction (ag : QLearnAgent) (sf : GameStateFeatures) (moves : List Move)
    (r : ℚ) (pick : Nat) : Move :=
  if r < ag.epsilon then moves.getD (pick % moves.length) Move.left
  else exploitChoice ag sf moves

/-- `QLearnAgent.get_move`: with no valid moves return `None` untouched;
otherwise learn from the pending pair, choose epsilon-greedily, update the
count and push the pending trackers. -/
def get_move (ag : QLearnAgent) (game_state : PyGameState) (r : ℚ) (pick : Nat) :
    Option Move × QLearnAgent :=
  let moves := validMoves game_state
  if moves.isEmpty then (none, ag)
  else
    let stateFeatures : GameStateFeatures := ⟨game_state⟩
    let ag1 :=
      if ag.previousState.isEmpty then ag
      else
        let previousState := ag.previousState.getLastD game_state
        let previousAction := ag.previousAction.getLastD Move.left
        let curReward := computeReward previousState game_state
        learn ag ⟨previousState⟩ previousAction curReward stateFeatures
    let action := chooseAction ag1 stateFeatures moves r pick
    let ag2 := updateCount ag1 stateFeatures action
    (some action,
      { ag2 with
        previousState := ag2.previousState ++ [game_state],
        previousAction := ag2.previousAction ++ [action] })

/-- `QLearnAgent.final`: one last learn from the pending pair, clear the
trackers, increment the episode counter, and zero alpha and epsilon once
the counter reaches `numTraining`. -/
def final (ag : QLearnAgent) (state : PyGameState) : QLearnAgent :=
  let ag1 :=
    if ag.previousState.isEmpty then ag
    else
      let previousState := ag.previousState.getLastD state
      let previousAction := ag.previousAction.getLastD Move.left
      let finalReward := computeReward previousState state
      learn ag ⟨previousState⟩ previousAction finalReward ⟨state⟩
  let ag2 := { ag1 with
    previousState := [], previousAction := [],
    episodesSoFar := ag1.episodesSoFar + 1 }
  if ag2.episodesSoFar ≥ ag2.numTraining then { ag2 with alpha := 0, epsilon := 0 }
  else ag2

/-- The agent constructed by `QLearnAgent()` with the default parameters
and an empty table. -/
def initialAgent : QLearnAgent :=
  { alpha := 1 / 5, epsilon := 1 / 20, gamma := 4 / 5, maxAttempts := 30,
    numTraining := 0, episodesSoFar := 0, qTable := [],
    previousState := [], previousAction := [] }

-- sanity checks (agent)
example :
    computeReward ⟨[[2, 0], [0, 0]], 0, 2, 0⟩ ⟨[[4, 0], [0, 2]], 4, 2, 1⟩ =
      (4 : ℚ) + (0 + (1 / 2) * 4) + 2 * 10 := by
  norm_num [computeReward, largest_in_corner, pyMax, cellD]
example : getQValue initialAgent ⟨⟨[[2, 0], [0, 0]], 0, 2, 0⟩⟩ Move.left = 0 := by
  decide
example :
    getCount (learn initialAgent ⟨⟨[[2, 0], [0, 0]], 0, 2, 0⟩⟩ Move.left 5
        ⟨⟨[[2, 0], [0, 0]], 0, 2, 1⟩⟩)
      ⟨⟨[[2, 0], [0, 0]], 0, 2, 0⟩⟩ Move.left = 1 := by decide

/-! ### Helper lemmas: rows, `set`, `merge` -/

theorem getD_set_ne (l : Row) (i j : Nat) (v : Int) (h : i ≠ j) :
    (l.set i v).getD j 0 = l.getD j 0 := by
  simp [List.getD_eq_getElem?_getD, List.getElem?_set_ne h]

theorem getD_set_self (l : Row) (i : Nat) (v : Int) (h : i < l.length) :
    (l.set i v).getD i 0 = v := by
  simp [List.getD_eq_getElem?_getD, List.getElem?_set_self', List.getElem?_eq_getElem h]

theorem getD_oob (l : Row) (i : Nat) (h : l.length ≤ i) : l.getD i 0 = 0 := by
  simp [List.getD_eq_getElem?_getD, List.getElem?_eq_none h]

theorem sum_set (l : Row) (i : Nat) (v : Int) (h : i < l.length) :
    (l.set i v).sum = l.sum - l.getD i 0 + v := by
  induction l generalizing i with
  | nil => simp at h
  | cons a t ih =>
    cases i with
    | zero => simp [List.getD_cons_zero]; ring
    | succ n =>
      have hn : n < t.length := by simpa using h
      simp [List.getD_cons_succ, ih n hn]
      ring

theorem mergeFrom_zero (row : Row) (s : Int) (i : Nat) :
    mergeFrom row s i 0 = (row, s) := rfl

theorem mergeFrom_succ (row : Row) (s : Int) (i fuel : Nat) :
    mergeFrom row s i (fuel + 1) =
      if row.getD i 0 = row.getD (i + 1) 0 then
        mergeFrom ((row.set i (2 * row.getD i 0)).set (i + 1) 0)
          (s + 2 * row.getD i 0) (i + 1) fuel
      else mergeFrom row s (i + 1) fuel := rfl

theorem mergeFrom_length (fuel : Nat) :
    ∀ (row : Row) (s : Int) (i : Nat), (mergeFrom row s i fuel).1.length = row.length := by
  induction fuel with
  | zero => intro row s i; rfl
  | succ fuel ih =>
    intro row s i
    rw [mergeFrom_succ]
    by_cases h : row.getD i 0 = row.getD (i + 1) 0
    · rw [if_pos h, ih]
      simp
    · rw [if_neg h, ih]

theorem merge_length (row : Row) : (merge row).1.length = row.length :=
  mergeFrom_length _ row 0 0

/-- The value invariant of one `merge` pass: while the loop stands at
index `i`, cells left of `i` hold `0`, their original value or its
double, cell `i` holds its original value or `0`, and cells right of `i`
are untouched.  Then every final cell holds `0`, its original value or
its double — a freshly doubled value is never doubled again. -/
theorem mergeFrom_cells (orig : Row) (fuel : Nat) :
    ∀ (row : Row) (s : Int) (i : Nat),
      row.length = orig.length →
      (∀ j, j < i →
        row.getD j 0 = 0 ∨ row.getD j 0 = orig.getD j 0 ∨
          row.getD j 0 = 2 * orig.getD j 0) →
      (row.getD i 0 = orig.getD i 0 ∨ row.getD i 0 = 0) →
      (∀ j, i < j → row.getD j 0 = orig.getD j 0) →
      ∀ j, (mergeFrom row s i fuel).1.getD j 0 = 0 ∨
        (mergeFrom row s i fuel).1.getD j 0 = orig.getD j 0 ∨
        (mergeFrom row s i fuel).1.getD j 0 = 2 * orig.getD j 0 := by
  induction fuel with
  | zero =>
    intro row s i hlen hleft hat hright j
    rw [mergeFrom_zero]
    rcases Nat.lt_trichotomy j i with hj | hj | hj
    · exact hleft j hj
    · subst hj
      rcases hat with h | h
      · exact Or.inr (Or.inl h)
      · exact Or.inl h
    · exact Or.inr (Or.inl (hright j hj))
  | succ fuel ih =>
    intro row s i hlen hleft hat hright j
    by_cases hc : row.getD i 0 = row.getD (i + 1) 0
    · -- merge branch: double cell i, zero cell i+1
      rw [mergeFrom_succ, if_pos hc]
      set row2 : Row := (row.set i (2 * row.getD i 0)).set (i + 1) 0 with hrow2
      have hlen2 : row2.length = orig.length := by
        simp [hrow2, hlen]
      have hr2_at_succ : row2.getD (i + 1) 0 = 0 := by
        by_cases hbound : i + 1 < row.length
        · have : ((row.set i (2 * row.getD i 0)).set (i + 1) 0).getD (i + 1) 0 = 0 :=
            getD_set_self _ _ _ (by simpa using hbound)
          simpa [hrow2] using this
        · have hle : row.length ≤ i + 1 := Nat.le_of_not_lt hbound
          have h1 : row2.getD (i + 1) 0 = row.getD (i + 1) 0 := by
            rw [hrow2, List.set_eq_of_length_le (by simpa using hle),
              getD_set_ne _ _ _ _ (by omega)]
          rw [h1, getD_oob _ _ hle]
      have hr2_at_i : row2.getD i 0 = 0 ∨ row2.getD i 0 = 2 * orig.getD i 0 := by
        by_cases hbound : i < row.length
        · have h1 : row2.getD i 0 = 2 * row.getD i 0 := by
            rw [hrow2, getD_set_ne _ _ _ _ (by omega), getD_set_self _ _ _ (by simpa using hbound)]
          rcases hat with h | h
          · exact Or.inr (by rw [h1, h])
          · exact Or.inl (by rw [h1, h, mul_zero])
        · have hle : row.length ≤ i := Nat.le_of_not_lt hbound
          have h1 : row2.getD i 0 = row.getD i 0 := by
            rw [hrow2, getD_set_ne _ _ _ _ (by omega),
              List.set_eq_of_length_le (Nat.le_of_not_lt hbound)]
          exact Or.inl (by rw [h1, getD_oob _ _ hle])
      have hr2_other : ∀ j, j ≠ i → j ≠ i + 1 → row2.getD j 0 = row.getD j 0 := by
        intro j hji hjs
        rw [hrow2, getD_set_ne _ _ _ _ (fun h => hjs h.symm),
          getD_set_ne _ _ _ _ (fun h => hji h.symm)]
      refine ih row2 _ (i + 1) hlen2 ?_ ?_ ?_ j
      · intro j hj
        rcases Nat.lt_or_ge j i with hji | hji
        · rw [hr2_other j (by omega) (by omega)]
          exact hleft j hji
        · have hj_eq : j = i := by omega
          subst hj_eq
          rcases hr2_at_i with h | h
          · exact Or.inl h
          · exact Or.inr (Or.inr h)
      · exact Or.inr hr2_at_succ
      · intro j hj
        rw [hr2_other j (by omega) (by omega)]
        exact hright j (by omega)
    · -- no merge: advance the index
      rw [mergeFrom_succ, if_neg hc]
      refine ih row s (i + 1) hlen ?_ ?_ ?_ j
      · intro j hj
        rcases Nat.lt_or_ge j i with hji | hji
        · exact hleft j hji
        · have hj_eq : j = i := by omega
          subst hj_eq
          rcases hat with h | h
          · exact Or.inr (Or.inl h)
          · exact Or.inl h
      · exact Or.inl (hright (i + 1) (by omega))
      · intro j hj
        exact hright j (by omega)

theorem merge_cells (row : Row) (j : Nat) :
    (merge row).1.getD j 0 = 0 ∨ (merge row).1.getD j 0 = row.getD j 0 ∨
      (merge row).1.getD j 0 = 2 * row.getD j 0 :=
  mergeFrom_cells row (row.length - 1) row 0 0 rfl
    (fun _ h => absurd h (Nat.not_lt_zero _)) (Or.inl rfl) (fun _ _ => rfl) j

theorem mergeFrom_sum (fuel : Nat) :
    ∀ (row : Row) (s : Int) (i : Nat), (mergeFrom row s i fuel).1.sum = row.sum := by
  induction fuel with
  | zero => intro row s i; rfl
  | succ fuel ih =>
    intro row s i
    rw [mergeFrom_succ]
    by_cases hc : row.getD i 0 = row.getD (i + 1) 0
    · rw [if_pos hc, ih]
      by_cases hb1 : i + 1 < row.length
      · have hbi : i < row.length := by omega
        rw [sum_set _ _ _ (by simpa using hb1), getD_set_ne _ _ _ _ (by omega),
          sum_set _ _ _ hbi, ← hc]
        ring
      · by_cases hb2 : i < row.length
        · have hoob : row.getD (i + 1) 0 = 0 := getD_oob _ _ (by omega)
          rw [List.set_eq_of_length_le (by simp only [List.length_set]; omega),
            sum_set _ _ _ hb2, hc, hoob]
          ring
        · rw [List.set_eq_of_length_le (by simp only [List.length_set]; omega),
            List.set_eq_of_length_le (by omega)]
    · rw [if_neg hc, ih]

theorem merge_sum (row : Row) : (merge row).1.sum = row.sum :=
  mergeFrom_sum _ row 0 0

theorem compress_cons (a : Int) (t : Row) :
    compress (a :: t) = if a ≠ 0 then a :: compress t else compress t := by
  simp only [compress, List.filter_cons]
  by_cases h : a = 0 <;> simp [h]

theorem compress_sum (l : Row) : (compress l).sum = l.sum := by
  induction l with
  | nil => rfl
  | cons a t ih =>
    rw [compress_cons]
    by_cases h : a = 0
    · rw [if_neg (by simp [h])]
      simp [h, ih]
    · rw [if_pos h]
      simp [ih]

theorem compress_length_le (l : Row) : (compress l).length ≤ l.length :=
  List.length_filter_le _ l

theorem moveRowLeft_sum (dim : Nat) (row : Row) :
    (moveRowLeft dim row).1.sum = row.sum := by
  simp only [moveRowLeft]
  rw [List.sum_append, compress_sum, merge_sum, compress_sum]
  simp

theorem moveRowLeft_length (dim : Nat) (row : Row) (h : row.length ≤ dim) :
    (moveRowLeft dim row).1.length = dim := by
  have h1 : (compress (merge (compress row)).1).length ≤ dim := by
    calc (compress (merge (compress row)).1).length
        ≤ (merge (compress row)).1.length := compress_length_le _
      _ = (compress row).length := merge_length _
      _ ≤ row.length := compress_length_le _
      _ ≤ dim := h
  simp only [moveRowLeft, List.length_append, List.length_replicate]
  omega

theorem moveLeftRows_boardSum (dim : Nat) (b : Board) :
    boardSum (moveLeftRows dim b).1 = boardSum b := by
  induction b with
  | nil => rfl
  | cons row rest ih =>
    simp only [moveLeftRows, boardSum, List.map_cons, List.sum_cons] at ih ⊢
    rw [moveRowLeft_sum, ih]

theorem moveLeftRows_length (dim : Nat) (b : Board) :
    (moveLeftRows dim b).1.length = b.length := by
  induction b with
  | nil => rfl
  | cons row rest ih => simp only [moveLeftRows, List.length_cons, ih]

theorem moveLeftRows_rows (dim : Nat) (b : Board) (h : ∀ r ∈ b, r.length ≤ dim) :
    ∀ r ∈ (moveLeftRows dim b).1, r.length = dim := by
  induction b with
  | nil => intro r hr; exact absurd hr (List.not_mem_nil r)
  | cons row rest ih =>
    intro r hr
    simp only [moveLeftRows] at hr
    rcases List.mem_cons.mp hr with hr | hr
    · subst hr
      exact moveRowLeft_length dim row (h row (List.mem_cons_self row rest))
    · exact ih (fun r2 hr2 => h r2 (List.mem_cons_of_mem row hr2)) r hr

theorem moveLeftRows_isBoard (dim : Nat) (b : Board) (h : isBoard dim b) :
    isBoard dim (moveLeftRows dim b).1 :=
  ⟨by rw [moveLeftRows_length, h.1],
    moveLeftRows_rows dim b (fun r hr => Nat.le_of_eq (h.2 r hr))⟩

/-! ### Helper lemmas: rotation -/

theorem pyZipAux_zero (ls : List Row) : pyZipAux 0 ls = [] := rfl

theorem pyZipAux_succ (m : Nat) (ls : List Row) :
    pyZipAux (m + 1) ls =
      if ls.all (fun l => !l.isEmpty) then
        ls.map (fun l => l.headD 0) :: pyZipAux m (ls.map (fun l => l.tail))
      else [] := rfl

theorem isEmpty_false_of_length (l : Row) (m : Nat) (h : l.length = m + 1) :
    l.isEmpty = false := by
  cases l with
  | nil => simp at h
  | cons a t => rfl

theorem all_nonempty_of_length (ls : List Row) (m : Nat)
    (h : ∀ l ∈ ls, l.length = m + 1) : ls.all (fun l => !l.isEmpty) = true := by
  rw [List.all_eq_true]
  intro l hl
  rw [isEmpty_false_of_length l m (h l hl)]
  rfl

theorem tails_length (ls : List Row) (m : Nat) (h : ∀ l ∈ ls, l.length = m + 1) :
    ∀ l ∈ ls.map (fun l => l.tail), l.length = m := by
  intro l hl
  obtain ⟨l0, hl0, rfl⟩ := List.mem_map.mp hl
  rw [List.length_tail, h l0 hl0]
  omega

theorem pyZipAux_length (m : Nat) :
    ∀ ls : List Row, (∀ l ∈ ls, l.length = m) → (pyZipAux m ls).length = m := by
  induction m with
  | zero => intro ls _; rfl
  | succ m ih =>
    intro ls h
    rw [pyZipAux_succ, if_pos (all_nonempty_of_length ls m h)]
    simp only [List.length_cons, ih (ls.map (fun l => l.tail)) (tails_length ls m h)]

theorem pyZipAux_rows (m : Nat) :
    ∀ ls : List Row, (∀ l ∈ ls, l.length = m) →
      ∀ r ∈ pyZipAux m ls, r.length = ls.length := by
  induction m with
  | zero => intro ls _ r hr; exact absurd hr (List.not_mem_nil r)
  | succ m ih =>
    intro ls h r hr
    rw [pyZipAux_succ, if_pos (all_nonempty_of_length ls m h)] at hr
    rcases List.mem_cons.mp hr with hr | hr
    · subst hr; exact List.length_map ls _
    · rw [ih (ls.map (fun l => l.tail)) (tails_length ls m h) r hr, List.length_map]

theorem boardSum_all_nil (ls : List Row) (h : ∀ l ∈ ls, l.length = 0) :
    boardSum ls = 0 := by
  induction ls with
  | nil => rfl
  | cons a t ih =>
    have ha : a = [] := List.eq_nil_of_length_eq_zero (h a (List.mem_cons_self a t))
    have iht := ih (fun l hl => h l (List.mem_cons_of_mem a hl))
    simp only [boardSum] at iht
    simp only [boardSum, List.map_cons, List.sum_cons, ha, List.sum_nil, iht]
    rfl

theorem headD_add_tail_sum (l : Row) : l.headD 0 + l.tail.sum = l.sum := by
  cases l <;> simp

theorem heads_tails_sum (ls : List Row) :
    (ls.map (fun l => l.headD 0)).sum + boardSum (ls.map (fun l => l.tail)) =
      boardSum ls := by
  induction ls with
  | nil => rfl
  | cons a t ih =>
    simp only [boardSum, List.map_cons, List.sum_cons] at ih ⊢
    rw [← ih, ← headD_add_tail_sum a]
    ring

theorem pyZipAux_boardSum (m : Nat) :
    ∀ ls : List Row, (∀ l ∈ ls, l.length = m) →
      boardSum (pyZipAux m ls) = boardSum ls := by
  induction m with
  | zero => intro ls h; exact (boardSum_all_nil ls h).symm
  | succ m ih =>
    intro ls h
    rw [pyZipAux_succ, if_pos (all_nonempty_of_length ls m h)]
    simp only [boardSum, List.map_cons, List.sum_cons]
    have := ih (ls.map (fun l => l.tail)) (tails_length ls m h)
    simp only [boardSum] at this
    rw [this]
    exact heads_tails_sum ls

theorem getD_zero_headD (l : Row) : l.getD 0 0 = l.headD 0 := by
  cases l <;> rfl

theorem tail_getD (l : Row) (i : Nat) : l.tail.getD i 0 = l.getD (i + 1) 0 := by
  cases l <;> rfl

theorem rowsGetD_oob (ls : List Row) (j : Nat) (h : ls.length ≤ j) :
    ls.getD j [] = [] := by
  simp [List.getD_eq_getElem?_getD, List.getElem?_eq_none h]

theorem pyZipAux_cellD (m : Nat) :
    ∀ ls : List Row, (∀ l ∈ ls, l.length = m) →
      ∀ i j, i < m → cellD (pyZipAux m ls) i j = cellD ls j i := by
  induction m with
  | zero => intro ls _ i j hi; exact absurd hi (Nat.not_lt_zero i)
  | succ m ih =>
    intro ls h i j hi
    rw [pyZipAux_succ, if_pos (all_nonempty_of_length ls m h)]
    cases i with
    | zero =>
      simp only [cellD, List.getD_cons_zero]
      by_cases hj : j < ls.length
      · rw [List.getD_eq_getElem _ _ (by simpa using hj), List.getElem_map]
        rw [List.getD_eq_getElem _ _ hj, getD_zero_headD]
      · rw [getD_oob _ _ (by simpa using Nat.le_of_not_lt hj)]
        rw [rowsGetD_oob _ _ (Nat.le_of_not_lt hj)]
        rfl
    | succ i =>
      simp only [cellD, List.getD_cons_succ]
      have hih := ih (ls.map (fun l => l.tail)) (tails_length ls m h) i j
        (Nat.lt_of_succ_lt_succ hi)
      simp only [cellD] at hih
      rw [hih]
      have htail : (ls.map (fun l => l.tail)).getD j [] = (ls.getD j []).tail := by
        by_cases hj : j < ls.length
        · rw [List.getD_eq_getElem _ _ (show j < (ls.map (fun l => l.tail)).length by
            simpa using hj), List.getElem_map, List.getD_eq_getElem _ _ hj]
        · rw [rowsGetD_oob _ _ (by simpa using Nat.le_of_not_lt hj),
            rowsGetD_oob _ _ (Nat.le_of_not_lt hj)]
          rfl
      rw [htail, tail_getD]

theorem reverse_rows (n : Nat) (b : Board) (h : ∀ r ∈ b, r.length = n) :
    ∀ r ∈ b.reverse, r.length = n := by
  intro r hr
  exact h r (List.mem_reverse.mp hr)

theorem pyZip_eq_aux (ls : List Row) (m : Nat) (h : ∀ l ∈ ls, l.length = m)
    (hne : ls ≠ []) : pyZip ls = pyZipAux m ls := by
  cases ls with
  | nil => exact absurd rfl hne
  | cons a t =>
    show pyZipAux a.length (a :: t) = pyZipAux m (a :: t)
    rw [h a (List.mem_cons_self a t)]

theorem rotate_isBoard (n : Nat) (b : Board) (h : isBoard n b) :
    isBoard n (rotate_board b) := by
  obtain ⟨hlen, hrows⟩ := h
  cases b with
  | nil => exact ⟨by simpa using hlen, fun r hr => absurd hr (List.not_mem_nil r)⟩
  | cons a t =>
    have hrev : ∀ l ∈ (a :: t).reverse, l.length = n := reverse_rows n _ hrows
    have hne : (a :: t).reverse ≠ [] := by simp
    rw [rotate_board, pyZip_eq_aux _ n hrev hne]
    constructor
    · exact pyZipAux_length n _ hrev
    · intro r hr
      rw [pyZipAux_rows n _ hrev r hr, List.length_reverse]
      exact hlen

theorem rotate_cellD (n : Nat) (b : Board) (h : isBoard n b) (i j : Nat)
    (hi : i < n) (hj : j < n) :
    cellD (rotate_board b) i j = cellD b (n - 1 - j) i := by
  obtain ⟨hlen, hrows⟩ := h
  have hne : b ≠ [] := by
    intro hb
    rw [hb] at hlen
    simp at hlen
    omega
  have hrev : ∀ l ∈ b.reverse, l.length = n := reverse_rows n b hrows
  rw [rotate_board, pyZip_eq_aux _ n hrev (by simpa using hne),
    pyZipAux_cellD n b.reverse hrev i j hi]
  have hjr : j < b.reverse.length := by rw [List.length_reverse, hlen]; exact hj
  rw [cellD, List.getD_eq_getElem _ _ hjr, List.getElem_reverse]
  have hjb : b.length - 1 - j < b.length := by rw [hlen]; omega
  rw [cellD, show n - 1 - j = b.length - 1 - j by rw [hlen],
    List.getD_eq_getElem _ _ hjb]

theorem cellD_in (b : Board) (i : Nat) (hi : i < b.length) (j : Nat) :
    cellD b i j = (b[i]).getD j 0 := by
  rw [cellD, List.getD_eq_getElem _ _ hi]

theorem boardEq_ext (n : Nat) (b1 b2 : Board) (h1 : isBoard n b1) (h2 : isBoard n b2)
    (hc : ∀ i j, i < n → j < n → cellD b1 i j = cellD b2 i j) : b1 = b2 := by
  apply List.ext_getElem (h1.1.trans h2.1.symm)
  intro i hi1 hi2
  have hr1 : (b1[i]).length = n := h1.2 _ (List.getElem_mem hi1)
  have hr2 : (b2[i]).length = n := h2.2 _ (List.getElem_mem hi2)
  apply List.ext_getElem (hr1.trans hr2.symm)
  intro j hj1 hj2
  have hcell := hc i j (h1.1 ▸ hi1) (hr1 ▸ hj1)
  rw [cellD_in b1 i hi1 j, cellD_in b2 i hi2 j] at hcell
  rw [List.getD_eq_getElem _ _ hj1, List.getD_eq_getElem _ _ hj2] at hcell
  exact hcell

theorem rotate4 (n : Nat) (b : Board) (h : isBoard n b) :
    rotate_board (rotate_board (rotate_board (rotate_board b))) = b := by
  have h1 := rotate_isBoard n b h
  have h2 := rotate_isBoard n _ h1
  have h3 := rotate_isBoard n _ h2
  have h4 := rotate_isBoard n _ h3
  apply boardEq_ext n _ _ h4 h
  intro i j hi hj
  rw [rotate_cellD n _ h3 i j hi hj]
  rw [rotate_cellD n _ h2 (n - 1 - j) i (by omega) hi]
  rw [rotate_cellD n _ h1 (n - 1 - i) (n - 1 - j) (by omega) (by omega)]
  rw [rotate_cellD n _ h (n - 1 - (n - 1 - j)) (n - 1 - i) (by omega) (by omega)]
  congr 1 <;> omega

theorem rotate_inj (n : Nat) (b1 b2 : Board) (h1 : isBoard n b1) (h2 : isBoard n b2)
    (he : rotate_board b1 = rotate_board b2) : b1 = b2 := by
  calc b1 = rotate_board (rotate_board (rotate_board (rotate_board b1))) :=
        (rotate4 n b1 h1).symm
    _ = rotate_board (rotate_board (rotate_board (rotate_board b2))) := by rw [he]
    _ = b2 := rotate4 n b2 h2

theorem boardSum_reverse (b : Board) : boardSum b.reverse = boardSum b := by
  simp [boardSum, List.map_reverse, List.sum_reverse]

theorem rotate_boardSum (n : Nat) (b : Board) (h : isBoard n b) :
    boardSum (rotate_board b) = boardSum b := by
  cases b with
  | nil => rfl
  | cons a t =>
    have hrev : ∀ l ∈ (a :: t).reverse, l.length = n := reverse_rows n _ h.2
    rw [rotate_board, pyZip_eq_aux _ n hrev (by simp),
      pyZipAux_boardSum n _ hrev, boardSum_reverse]

/-! ### Helper lemmas: the four directional moves -/

theorem moveLeftRows_cons (dim : Nat) (row : Row) (rest : Board) :
    moveLeftRows dim (row :: rest) =
      ((moveRowLeft dim row).1 :: (moveLeftRows dim rest).1,
        (moveRowLeft dim row).2 + (moveLeftRows dim rest).2.1,
        (decide (row ≠ (moveRowLeft dim row).1)) || (moveLeftRows dim rest).2.2) := rfl

theorem moveLeftRows_moved (dim : Nat) (b : Board) :
    ((moveLeftRows dim b).2.2 = true ↔ (moveLeftRows dim b).1 ≠ b) := by
  induction b with
  | nil => simp [moveLeftRows]
  | cons row rest ih =>
    rw [moveLeftRows_cons]
    rw [show (((decide (row ≠ (moveRowLeft dim row).1)) ||
        (moveLeftRows dim rest).2.2) = true) =
      (row ≠ (moveRowLeft dim row).1 ∨ (moveLeftRows dim rest).2.2 = true) by
        simp]
    constructor
    · intro hmv heq
      obtain ⟨h1, h2⟩ := List.cons.injEq .. ▸ heq
      rcases hmv with hm | hm
      · exact hm h1.symm
      · exact (ih.mp hm) h2
    · intro hne
      by_cases h1 : (moveRowLeft dim row).1 = row
      · have h2 : (moveLeftRows dim rest).1 ≠ rest := fun h2 => hne (by rw [h1, h2])
        exact Or.inr (ih.mpr h2)
      · exact Or.inl (fun h => h1 h.symm)

theorem moveDownB_board (dim : Nat) (b : Board) :
    (moveDownB dim b).1 =
      rotate_board (rotate_board (rotate_board (moveLeftRows dim (rotate_board b)).1)) :=
  rfl

theorem moveDownB_moved (dim : Nat) (b : Board) :
    (moveDownB dim b).2.2 = (moveLeftRows dim (rotate_board b)).2.2 := rfl

theorem moveUpB_board (dim : Nat) (b : Board) :
    (moveUpB dim b).1 =
      rotate_board
        (moveLeftRows dim (rotate_board (rotate_board (rotate_board b)))).1 :=
  rfl

theorem moveUpB_moved (dim : Nat) (b : Board) :
    (moveUpB dim b).2.2 =
      (moveLeftRows dim (rotate_board (rotate_board (rotate_board b)))).2.2 := rfl

theorem moveRightB_board (dim : Nat) (b : Board) :
    (moveRightB dim b).1 =
      rotate_board (rotate_board (moveLeftRows dim (rotate_board (rotate_board b))).1) :=
  rfl

theorem moveRightB_moved (dim : Nat) (b : Board) :
    (moveRightB dim b).2.2 =
      (moveLeftRows dim (rotate_board (rotate_board b))).2.2 := rfl

theorem moveB_isBoard (dim : Nat) (d : Move) (b : Board) (h : isBoard dim b) :
    isBoard dim (moveB dim d b).1 := by
  cases d with
  | left => exact moveLeftRows_isBoard dim b h
  | right =>
    rw [moveB, moveRightB_board]
    exact rotate_isBoard _ _ (rotate_isBoard _ _ (moveLeftRows_isBoard _ _
      (rotate_isBoard _ _ (rotate_isBoard _ _ h))))
  | up =>
    rw [moveB, moveUpB_board]
    exact rotate_isBoard _ _ (moveLeftRows_isBoard _ _
      (rotate_isBoard _ _ (rotate_isBoard _ _ (rotate_isBoard _ _ h))))
  | down =>
    rw [moveB, moveDownB_board]
    exact rotate_isBoard _ _ (rotate_isBoard _ _ (rotate_isBoard _ _
      (moveLeftRows_isBoard _ _ (rotate_isBoard _ _ h))))

theorem moveB_boardSum (dim : Nat) (d : Move) (b : Board) (h : isBoard dim b) :
    boardSum (moveB dim d b).1 = boardSum b := by
  cases d with
  | left => exact moveLeftRows_boardSum dim b
  | right =>
    rw [moveB, moveRightB_board]
    have h1 := rotate_isBoard _ _ h
    have h2 := rotate_isBoard _ _ h1
    have h3 := moveLeftRows_isBoard _ _ h2
    rw [rotate_boardSum _ _ (rotate_isBoard _ _ h3), rotate_boardSum _ _ h3,
      moveLeftRows_boardSum, rotate_boardSum _ _ h1, rotate_boardSum _ _ h]
  | up =>
    rw [moveB, moveUpB_board]
    have h1 := rotate_isBoard _ _ h
    have h2 := rotate_isBoard _ _ h1
    have h3 := rotate_isBoard _ _ h2
    have h4 := moveLeftRows_isBoard _ _ h3
    rw [rotate_boardSum _ _ h4, moveLeftRows_boardSum, rotate_boardSum _ _ h2,
      rotate_boardSum _ _ h1, rotate_boardSum _ _ h]
  | down =>
    rw [moveB, moveDownB_board]
    have h1 := rotate_isBoard _ _ h
    have h2 := moveLeftRows_isBoard _ _ h1
    rw [rotate_boardSum _ _ (rotate_isBoard _ _ (rotate_isBoard _ _ h2)),
      rotate_boardSum _ _ (rotate_isBoard _ _ h2), rotate_boardSum _ _ h2,
      moveLeftRows_boardSum, rotate_boardSum _ _ h]

theorem moveB_moved_iff (dim : Nat) (d : Move) (b : Board) (h : isBoard dim b) :
    ((moveB dim d b).2.2 = true ↔ (moveB dim d b).1 ≠ b) := by
  cases d with
  | left => exact moveLeftRows_moved dim b
  | right =>
    rw [moveB, moveRightB_moved, moveRightB_board, moveLeftRows_moved]
    have h1 := rotate_isBoard _ _ h
    have h2 := rotate_isBoard _ _ h1
    have hL := moveLeftRows_isBoard _ _ h2
    constructor
    · intro hne heq
      apply hne
      have e1 := congrArg (fun x => rotate_board (rotate_board x)) heq
      simp only at e1
      calc (moveLeftRows dim (rotate_board (rotate_board b))).1
          = rotate_board (rotate_board (rotate_board (rotate_board
              (moveLeftRows dim (rotate_board (rotate_board b))).1))) :=
            (rotate4 dim _ hL).symm
        _ = rotate_board (rotate_board b) := by rw [e1]
    · intro hne heq
      apply hne
      rw [heq]
      exact rotate4 dim b h
  | up =>
    rw [moveB, moveUpB_moved, moveUpB_board, moveLeftRows_moved]
    have h1 := rotate_isBoard _ _ h
    have h2 := rotate_isBoard _ _ h1
    have h3 := rotate_isBoard _ _ h2
    have hL := moveLeftRows_isBoard _ _ h3
    constructor
    · intro hne heq
      apply hne
      have e1 := congrArg
        (fun x => rotate_board (rotate_board (rotate_board x))) heq
      simp only at e1
      calc (moveLeftRows dim
              (rotate_board (rotate_board (rotate_board b)))).1
          = rotate_board (rotate_board (rotate_board (rotate_board
              (moveLeftRows dim
                (rotate_board (rotate_board (rotate_board b)))).1))) :=
            (rotate4 dim _ hL).symm
        _ = rotate_board (rotate_board (rotate_board b)) := by rw [e1]
    · intro hne heq
      apply hne
      rw [heq]
      exact rotate4 dim b h
  | down =>
    rw [moveB, moveDownB_moved, moveDownB_board, moveLeftRows_moved]
    have h1 := rotate_isBoard _ _ h
    have hL := moveLeftRows_isBoard _ _ h1
    constructor
    · intro hne heq
      apply hne
      have e1 := congrArg rotate_board heq
      simp only at e1
      calc (moveLeftRows dim (rotate_board b)).1
          = rotate_board (rotate_board (rotate_board (rotate_board
              (moveLeftRows dim (rotate_board b)).1))) := (rotate4 dim _ hL).symm
        _ = rotate_board b := by rw [e1]
    · intro hne heq
      apply hne
      rw [heq]
      exact rotate4 dim b h




/-! ### Helper lemmas: the Q-table dict -/

theorem moveBEq_refl (m : Move) : (m == m) = true := by
  cases m <;> rfl

theorem keyBEq_refl (k : QKey) : keyBEq k k = true := by
  simp [keyBEq, gsfBEq, moveBEq_refl]

theorem dictGet_dictSet_self (t : QTable) (k : QKey) (v : ℚ × Nat) :
    dictGet (dictSet t k v) k = v := by
  induction t with
  | nil =>
    simp [dictSet, dictGet, List.find?_cons, keyBEq_refl]
  | cons e rest ih =>
    by_cases h : keyBEq e.1 k
    · simp [dictSet, h, dictGet, List.find?_cons]
    · have hf : keyBEq e.1 k = false := by simpa using h
      simp only [dictSet, hf, Bool.false_eq_true, if_false]
      simp only [dictGet, List.find?_cons, hf] at ih ⊢
      exact ih

/-! ### Game-level unfoldings for `move_possible` -/

theorem simulate_move_eq (d : Move) (g : Game) :
    simulate_move d g = (decide ((moveB g.dim d g.board).1 ≠ g.board), g) := by
  obtain ⟨dim, board, score⟩ := g
  rfl

theorem move_possible_eq (g : Game) :
    move_possible g =
      (decide ((moveB g.dim Move.left g.board).1 ≠ g.board) ||
        (decide ((moveB g.dim Move.right g.board).1 ≠ g.board) ||
          (decide ((moveB g.dim Move.up g.board).1 ≠ g.board) ||
            decide ((moveB g.dim Move.down g.board).1 ≠ g.board))), g) := by
  obtain ⟨dim, board, score⟩ := g
  simp only [move_possible, simulate_move_eq]
  by_cases h1 : (moveB dim Move.left board).1 = board <;>
    by_cases h2 : (moveB dim Move.right board).1 = board <;>
      by_cases h3 : (moveB dim Move.up board).1 = board <;>
        by_cases h4 : (moveB dim Move.down board).1 = board <;>
          simp [h1, h2, h3, h4]

/-! ### GameState-level unfoldings for `valid_moves` -/

theorem valid_moves_st_snd (gs : PyGameState) : (valid_moves_st gs).2 = gs := by
  obtain ⟨board, score, dim, oid⟩ := gs
  rfl

theorem bool_eq_decide (b : Bool) (P : Prop) [Decidable P] (h : b = true ↔ P) :
    b = decide P := by
  by_cases hp : P
  · rw [decide_eq_true hp]
    exact h.mpr hp
  · rw [decide_eq_false hp]
    cases hb : b
    · rfl
    · exact absurd (h.mp hb) hp

theorem valid_moves_st_fst (gs : PyGameState) :
    (valid_moves_st gs).1 =
      [Move.left, Move.right, Move.up, Move.down].filter
        (fun d => (moveB gs.dim d gs.board).2.2) := by
  obtain ⟨board, score, dim, oid⟩ := gs
  show (valid_moves_st ⟨board, score, dim, oid⟩).1 = _
  by_cases h1 : (moveB dim Move.left board).2.2 <;>
    by_cases h2 : (moveB dim Move.right board).2.2 <;>
      by_cases h3 : (moveB dim Move.up board).2.2 <;>
        by_cases h4 : (moveB dim Move.down board).2.2 <;>
          simp [valid_moves_st, List.filter, h1, h2, h3, h4]

/-! ### Claim theorems -/

/-- C4: applying the left move with scoring enabled to the row
`[2, 2, 2, 2]` produces `[4, 4, 0, 0]` and adds exactly 8 to the score
(also checked through a full `Game`-level left move); in general, one
merge pass maps every cell to `0`, its original value, or exactly its
double — a freshly doubled value is never doubled again in the same
pass. -/
theorem C4_merge_no_cascade :
    (moveRowLeft 4 [2, 2, 2, 2] = ([4, 4, 0, 0], 8) ∧
      (gMove Move.left true
        ⟨4, [[2, 2, 2, 2], [0, 0, 0, 0], [0, 0, 0, 0], [0, 0, 0, 0]], 0⟩).2 =
        ⟨4, [[4, 4, 0, 0], [0, 0, 0, 0], [0, 0, 0, 0], [0, 0, 0, 0]], 8⟩) ∧
    ∀ (row : Row) (j : Nat),
      (merge row).1.getD j 0 = 0 ∨ (merge row).1.getD j 0 = row.getD j 0 ∨
        (merge row).1.getD j 0 = 2 * row.getD j 0 :=
  ⟨by decide, merge_cells⟩

/-- C5: `move_possible` returns true iff at least one of the four
directional moves would change the board, and it leaves both the board
and the score exactly as they were. -/
theorem C5_move_possible (g : Game) :
    ((move_possible g).1 = true ↔
      ((moveB g.dim Move.left g.board).1 ≠ g.board ∨
        (moveB g.dim Move.right g.board).1 ≠ g.board ∨
        (moveB g.dim Move.up g.board).1 ≠ g.board ∨
        (moveB g.dim Move.down g.board).1 ≠ g.board)) ∧
    (move_possible g).2.board = g.board ∧ (move_possible g).2.score = g.score := by
  rw [move_possible_eq]
  refine ⟨?_, rfl, rfl⟩
  simp

/-- C9 as frozen is false: on a row with no zeros, `compress` returns a
sequence of the same length, not a strictly shorter one. -/
theorem C9_counterexample :
    compress [2, 4, 8, 16] = [2, 4, 8, 16] ∧
      ¬ ((compress [2, 4, 8, 16]).length < ([2, 4, 8, 16] : Row).length) := by
  decide

/-- C9 amended: `compress` returns the non-zero entries of the row in
their original relative order (a sublist with the same multiplicity of
every non-zero value), and the returned sequence is never longer than
the input row. -/
theorem C9_compress (row : Row) :
    (compress row).Sublist row ∧
    (∀ x ∈ compress row, x ≠ 0) ∧
    (∀ x : Int, x ≠ 0 → (compress row).count x = row.count x) ∧
    (compress row).length ≤ row.length := by
  refine ⟨List.filter_sublist row, ?_, ?_, List.length_filter_le _ row⟩
  · intro x hx
    simp only [compress, List.mem_filter] at hx
    simpa using hx.2
  · intro x hx
    exact List.count_filter (decide_eq_true hx)

/-- C9 witness: the amended properties evaluated on the row
`[0, 5, 0, 3]`. -/
theorem C9_compress_witness :
    (compress [0, 5, 0, 3]).Sublist [0, 5, 0, 3] ∧
    (compress [0, 5, 0, 3]).count 5 = ([0, 5, 0, 3] : Row).count 5 ∧
    (compress [0, 5, 0, 3]).length ≤ ([0, 5, 0, 3] : Row).length :=
  ⟨(C9_compress [0, 5, 0, 3]).1,
    (C9_compress [0, 5, 0, 3]).2.2.1 5 (by decide),
    (C9_compress [0, 5, 0, 3]).2.2.2⟩

/-- C10: on a well-formed board, each of the four directional moves, with
either value of the scoring flag, preserves the sum of all cell values of
the board. -/
theorem C10_moves_preserve_sum (g : Game) (us : Bool) (d : Move)
    (h : isBoard g.dim g.board) :
    boardSum (gMove d us g).2.board = boardSum g.board := by
  show boardSum (moveB g.dim d g.board).1 = boardSum g.board
  exact moveB_boardSum g.dim d g.board h

/-- C10 witness: sum preservation evaluated on a concrete board for all
four directions and both flag values. -/
theorem C10_moves_preserve_sum_witness :
    isBoard 2 [[2, 2], [4, 0]] ∧
    boardSum (gMove Move.left true ⟨2, [[2, 2], [4, 0]], 0⟩).2.board =
      boardSum [[2, 2], [4, 0]] ∧
    boardSum (gMove Move.right false ⟨2, [[2, 2], [4, 0]], 0⟩).2.board =
      boardSum [[2, 2], [4, 0]] ∧
    boardSum (gMove Move.up true ⟨2, [[2, 2], [4, 0]], 0⟩).2.board =
      boardSum [[2, 2], [4, 0]] ∧
    boardSum (gMove Move.down false ⟨2, [[2, 2], [4, 0]], 0⟩).2.board =
      boardSum [[2, 2], [4, 0]] :=
  ⟨by decide,
    C10_moves_preserve_sum ⟨2, [[2, 2], [4, 0]], 0⟩ true Move.left (by decide),
    C10_moves_preserve_sum ⟨2, [[2, 2], [4, 0]], 0⟩ false Move.right (by decide),
    C10_moves_preserve_sum ⟨2, [[2, 2], [4, 0]], 0⟩ true Move.up (by decide),
    C10_moves_preserve_sum ⟨2, [[2, 2], [4, 0]], 0⟩ false Move.down (by decide)⟩

/-- C2 as frozen is false: `learn` does not preserve the visit count of
`(state, action)` — starting from the empty table (count 0), one `learn`
call stores count 1. -/
theorem C2_counterexample :
    getCount initialAgent ⟨⟨[[2, 0], [0, 0]], 0, 2, 0⟩⟩ Move.left = 0 ∧
    getCount
      (learn initialAgent ⟨⟨[[2, 0], [0, 0]], 0, 2, 0⟩⟩ Move.left 5
        ⟨⟨[[2, 2], [0, 0]], 4, 2, 1⟩⟩)
      ⟨⟨[[2, 0], [0, 0]], 0, 2, 0⟩⟩ Move.left = 1 := by
  decide

/-- C2 amended: `learn(state, action, reward, nextState)` sets the stored
value of `(state, action)` to
`(1 − α)·Q(state, action) + α·(reward + γ·maxQ(nextState))`, and
increments the visit count of `(state, action)` by one (it is not
preserved). -/
theorem C2_learn (ag : QLearnAgent) (state : GameStateFeatures) (action : Move)
    (reward : ℚ) (nextState : GameStateFeatures) :
    getQValue (learn ag state action reward nextState) state action =
      (1 - ag.alpha) * getQValue ag state action +
        ag.alpha * (reward + ag.gamma * maxQValue ag nextState) ∧
    getCount (learn ag state action reward nextState) state action =
      getCount ag state action + 1 := by
  constructor
  · simp only [learn, getQValue]
    rw [dictGet_dictSet_self]
  · simp only [learn, getCount]
    rw [dictGet_dictSet_self]

/-- C8: on a well-formed snapshot, `valid_moves` returns exactly the
directions whose transform changes at least one cell (in probe order
left, right, up, down), and afterwards both the snapshot's board and its
score equal their values before the call. -/
theorem C8_valid_moves (gs : PyGameState) (h : isBoard gs.dim gs.board) :
    (valid_moves_st gs).1 =
      [Move.left, Move.right, Move.up, Move.down].filter
        (fun d => decide ((moveB gs.dim d gs.board).1 ≠ gs.board)) ∧
    (∀ d : Move,
      d ∈ (valid_moves_st gs).1 ↔ (moveB gs.dim d gs.board).1 ≠ gs.board) ∧
    (valid_moves_st gs).2.board = gs.board ∧
    (valid_moves_st gs).2.score = gs.score := by
  have hflag : ∀ d : Move, (moveB gs.dim d gs.board).2.2 =
      decide ((moveB gs.dim d gs.board).1 ≠ gs.board) :=
    fun d => bool_eq_decide _ _ (moveB_moved_iff gs.dim d gs.board h)
  have hfst : (valid_moves_st gs).1 =
      [Move.left, Move.right, Move.up, Move.down].filter
        (fun d => decide ((moveB gs.dim d gs.board).1 ≠ gs.board)) := by
    rw [valid_moves_st_fst]
    exact List.filter_congr (fun d _ => hflag d)
  refine ⟨hfst, ?_, by rw [valid_moves_st_snd], by rw [valid_moves_st_snd]⟩
  intro d
  rw [hfst, List.mem_filter]
  constructor
  · intro hd
    exact of_decide_eq_true hd.2
  · intro hd
    exact ⟨by cases d <;> simp, decide_eq_true hd⟩

/-- C8 witness: the probe result, including the restored board and score,
evaluated on a concrete well-formed snapshot. -/
theorem C8_valid_moves_witness :
    isBoard 2 [[2, 2], [0, 4]] ∧
    (valid_moves_st ⟨[[2, 2], [0, 4]], 5, 2, 3⟩).1 =
      [Move.left, Move.right, Move.up, Move.down].filter
        (fun d => decide ((moveB 2 d [[2, 2], [0, 4]]).1 ≠ [[2, 2], [0, 4]])) ∧
    (Move.left ∈ (valid_moves_st ⟨[[2, 2], [0, 4]], 5, 2, 3⟩).1 ↔
      (moveB 2 Move.left [[2, 2], [0, 4]]).1 ≠ [[2, 2], [0, 4]]) ∧
    (valid_moves_st ⟨[[2, 2], [0, 4]], 5, 2, 3⟩).2.board = [[2, 2], [0, 4]] ∧
    (valid_moves_st ⟨[[2, 2], [0, 4]], 5, 2, 3⟩).2.score = 5 :=
  ⟨by decide,
    (C8_valid_moves ⟨[[2, 2], [0, 4]], 5, 2, 3⟩ (by decide)).1,
    (C8_valid_moves ⟨[[2, 2], [0, 4]], 5, 2, 3⟩ (by decide)).2.1 Move.left,
    (C8_valid_moves ⟨[[2, 2], [0, 4]], 5, 2, 3⟩ (by decide)).2.2.1,
    (C8_valid_moves ⟨[[2, 2], [0, 4]], 5, 2, 3⟩ (by decide)).2.2.2⟩

/-- C1: the claim fails on the code.  `GameState` defines neither
`__eq__` nor `__hash__`, so `GameStateFeatures.__eq__` and `__hash__`
(which delegate to the wrapped state) fall back to Python object
identity: two snapshots with cell-for-cell equal boards and equal scores
wrap into features objects that are NOT equal and have different hashes,
and `getQValue`/`getCount`/`maxQValue` on one snapshot miss the entry
stored under the other (returning the defaults 0). -/
theorem C1_identity_keying :
    (⟨[[2, 0], [0, 0]], 0, 2, 0⟩ : PyGameState).board =
      (⟨[[2, 0], [0, 0]], 0, 2, 1⟩ : PyGameState).board ∧
    (⟨[[2, 0], [0, 0]], 0, 2, 0⟩ : PyGameState).score =
      (⟨[[2, 0], [0, 0]], 0, 2, 1⟩ : PyGameState).score ∧
    gsfBEq ⟨⟨[[2, 0], [0, 0]], 0, 2, 0⟩⟩ ⟨⟨[[2, 0], [0, 0]], 0, 2, 1⟩⟩ = false ∧
    gsfHash ⟨⟨[[2, 0], [0, 0]], 0, 2, 0⟩⟩ ≠ gsfHash ⟨⟨[[2, 0], [0, 0]], 0, 2, 1⟩⟩ ∧
    getQValue
      { initialAgent with
        qTable := dictSet [] (⟨⟨[[2, 0], [0, 0]], 0, 2, 0⟩⟩, Move.left) (5, 3) }
      ⟨⟨[[2, 0], [0, 0]], 0, 2, 0⟩⟩ Move.left = 5 ∧
    getCount
      { initialAgent with
        qTable := dictSet [] (⟨⟨[[2, 0], [0, 0]], 0, 2, 0⟩⟩, Move.left) (5, 3) }
      ⟨⟨[[2, 0], [0, 0]], 0, 2, 0⟩⟩ Move.left = 3 ∧
    getQValue
      { initialAgent with
        qTable := dictSet [] (⟨⟨[[2, 0], [0, 0]], 0, 2, 0⟩⟩, Move.left) (5, 3) }
      ⟨⟨[[2, 0], [0, 0]], 0, 2, 1⟩⟩ Move.left = 0 ∧
    getCount
      { initialAgent with
        qTable := dictSet [] (⟨⟨[[2, 0], [0, 0]], 0, 2, 0⟩⟩, Move.left) (5, 3) }
      ⟨⟨[[2, 0], [0, 0]], 0, 2, 1⟩⟩ Move.left = 0 ∧
    maxQValue
      { initialAgent with
        qTable := dictSet [] (⟨⟨[[2, 0], [0, 0]], 0, 2, 0⟩⟩, Move.left) (5, 3) }
      ⟨⟨[[2, 0], [0, 0]], 0, 2, 1⟩⟩ = 0 := by
  decide

/-! ### Helper lemmas: Python `max` and the corner predicate -/

theorem foldl_max_ge_start (l : List Int) :
    ∀ a : Int, a ≤ l.foldl max a := by
  induction l with
  | nil => intro a; exact le_refl a
  | cons b t ih =>
    intro a
    exact le_trans (le_max_left a b) (ih (max a b))

theorem foldl_max_ge_mem (l : List Int) :
    ∀ (a : Int), ∀ x ∈ l, x ≤ l.foldl max a := by
  induction l with
  | nil => intro a x hx; exact absurd hx (List.not_mem_nil x)
  | cons b t ih =>
    intro a x hx
    rcases List.mem_cons.mp hx with hx | hx
    · subst hx
      exact le_trans (le_max_right a x) (foldl_max_ge_start t (max a x))
    · exact ih (max a b) x hx

theorem foldl_max_mem (l : List Int) :
    ∀ a : Int, l.foldl max a = a ∨ l.foldl max a ∈ l := by
  induction l with
  | nil => intro a; exact Or.inl rfl
  | cons b t ih =>
    intro a
    rcases ih (max a b) with h | h
    · rcases max_choice a b with hm | hm
      · exact Or.inl (by rw [List.foldl_cons, h, hm])
      · exact Or.inr (by rw [List.foldl_cons, h, hm]; exact List.mem_cons_self b t)
    · exact Or.inr (List.mem_cons_of_mem b h)

theorem pyMax_le (l : List Int) : ∀ x ∈ l, x ≤ pyMax l := by
  intro x hx
  cases l with
  | nil => exact absurd hx (List.not_mem_nil x)
  | cons h t =>
    rcases List.mem_cons.mp hx with hx | hx
    · subst hx
      exact foldl_max_ge_start t x
    · exact foldl_max_ge_mem t h x hx

theorem pyMax_mem (l : List Int) (h : l ≠ []) : pyMax l ∈ l := by
  cases l with
  | nil => exact absurd rfl h
  | cons a t =>
    rcases foldl_max_mem t a with hm | hm
    · rw [show pyMax (a :: t) = t.foldl max a from rfl, hm]
      exact List.mem_cons_self a t
    · exact List.mem_cons_of_mem a hm

theorem board_max_bound (e : PyGameState) :
    ∀ x ∈ e.board.flatten, x ≤ pyMax (e.board.map pyMax) := by
  intro x hx
  obtain ⟨r, hr, hxr⟩ := List.mem_flatten.mp hx
  exact le_trans (pyMax_le r x hxr)
    (pyMax_le (e.board.map pyMax) (pyMax r) (List.mem_map_of_mem pyMax hr))

theorem board_max_mem (e : PyGameState) (hdim : 0 < e.dim)
    (hb : isBoard e.dim e.board) :
    pyMax (e.board.map pyMax) ∈ e.board.flatten := by
  obtain ⟨hlen, hrows⟩ := hb
  have hbne : e.board ≠ [] := by
    intro hnil
    rw [hnil] at hlen
    simp at hlen
    omega
  have hmne : e.board.map pyMax ≠ [] := by
    intro hnil
    exact hbne (List.map_eq_nil_iff.mp hnil)
  obtain ⟨r, hr, hpr⟩ := List.mem_map.mp (pyMax_mem (e.board.map pyMax) hmne)
  have hrne : r ≠ [] := by
    intro hnil
    have := hrows r hr
    rw [hnil] at this
    simp at this
    omega
  rw [← hpr]
  exact List.mem_flatten.mpr ⟨r, hr, pyMax_mem r hrne⟩

theorem corner_mem_flatten (e : PyGameState) (hdim : 0 < e.dim)
    (hb : isBoard e.dim e.board) :
    cellD e.board 0 0 ∈ e.board.flatten := by
  obtain ⟨hlen, hrows⟩ := hb
  cases hbd : e.board with
  | nil =>
    rw [hbd] at hlen
    simp at hlen
    omega
  | cons r rest =>
    have hr : r.length = e.dim := hrows r (by rw [hbd]; exact List.mem_cons_self r rest)
    cases hrd : r with
    | nil =>
      rw [hrd] at hr
      simp at hr
      omega
    | cons c cs =>
      have : cellD ((c :: cs) :: rest) 0 0 = c := rfl
      rw [this]
      exact List.mem_flatten.mpr
        ⟨c :: cs, List.mem_cons_self _ rest, List.mem_cons_self c cs⟩

theorem largest_in_corner_iff (e : PyGameState) (hdim : 0 < e.dim)
    (hb : isBoard e.dim e.board) :
    (largest_in_corner ⟨e⟩ = true ↔
      ∀ x ∈ e.board.flatten, x ≤ cellD e.board 0 0) := by
  rw [largest_in_corner, beq_iff_eq]
  constructor
  · intro heq x hx
    rw [← heq]
    exact board_max_bound e x hx
  · intro hall
    apply le_antisymm
    · exact hall _ (board_max_mem e hdim hb)
    · exact board_max_bound e _ (corner_mem_flatten e hdim hb)

/-- C3: on a well-formed nonempty board, `computeReward(start, end)`
equals the score delta, plus 10 per zero cell of the end board, plus a
corner bonus of `start.score + 0.5 * delta` exactly when the value at
cell (0,0) is a maximum of the end board, and 0 otherwise. -/
theorem C3_compute_reward (s e : PyGameState) (hdim : 0 < e.dim)
    (hb : isBoard e.dim e.board) :
    computeReward s e =
      ((e.score : ℚ) - (s.score : ℚ)) +
        10 * ((e.board.flatten.count 0 : Nat) : ℚ) +
        (if ∀ x ∈ e.board.flatten, x ≤ cellD e.board 0 0 then
          (s.score : ℚ) + (1 / 2) * ((e.score : ℚ) - (s.score : ℚ))
        else 0) := by
  have hcount : (e.board.map (fun row => row.countP (fun cell => cell == 0))).sum
      = e.board.flatten.count 0 := by
    rw [List.count_flatten]
    rfl
  have hif : (if largest_in_corner ⟨e⟩ = true then
      (s.score : ℚ) + (1 / 2) * (((e.score - s.score : Int) : ℚ)) else 0) =
    (if ∀ x ∈ e.board.flatten, x ≤ cellD e.board 0 0 then
      (s.score : ℚ) + (1 / 2) * ((e.score : ℚ) - (s.score : ℚ)) else 0) :=
    if_congr (largest_in_corner_iff e hdim hb) (by push_cast; ring) rfl
  simp only [computeReward]
  rw [hcount, hif]
  push_cast
  ring

def c3Start : PyGameState := ⟨[[2, 0], [0, 0]], 0, 2, 0⟩

def c3End : PyGameState := ⟨[[4, 0], [0, 2]], 4, 2, 1⟩

/-- C3 witness: the reward decomposition evaluated on a concrete pair of
snapshots. -/
theorem C3_compute_reward_witness :
    0 < c3End.dim ∧ isBoard c3End.dim c3End.board ∧
    computeReward c3Start c3End =
      ((c3End.score : ℚ) - (c3Start.score : ℚ)) +
        10 * ((c3End.board.flatten.count 0 : Nat) : ℚ) +
        (if ∀ x ∈ c3End.board.flatten, x ≤ cellD c3End.board 0 0 then
          (c3Start.score : ℚ) + (1 / 2) * ((c3End.score : ℚ) - (c3Start.score : ℚ))
        else 0) :=
  ⟨by decide, by decide, C3_compute_reward c3Start c3End (by decide) (by decide)⟩

/-- C7: whenever the snapshot has no valid moves, `get_move` returns the
sentinel `None` (with the agent unchanged, not an exception), and the
`play` loop maps that `None` to the "No valid moves available" game-over
termination, which is distinct from the "Invalid move returned by agent"
termination. -/
theorem C7_no_valid_moves (ag : QLearnAgent) (gs : PyGameState) (r : ℚ)
    (pick : Nat) (g : Game) (h : validMoves gs = []) :
    get_move ag gs r pick = (none, ag) ∧
    (playStep g (get_move ag gs r pick).1).1 = StepRes.noValidMoves ∧
    StepRes.noValidMoves ≠ StepRes.invalidMove := by
  have h1 : get_move ag gs r pick = (none, ag) := by
    simp [get_move, h]
  refine ⟨h1, by rw [h1]; rfl, by decide⟩

/-- C7 witness: a full board with no legal merges, on which `get_move`
returns `None` and the play loop reports the no-valid-moves game over. -/
theorem C7_no_valid_moves_witness :
    validMoves ⟨[[2, 4], [4, 2]], 0, 2, 9⟩ = [] ∧
    get_move initialAgent ⟨[[2, 4], [4, 2]], 0, 2, 9⟩ 0 0 = (none, initialAgent) ∧
    (playStep ⟨2, [[2, 4], [4, 2]], 0⟩
      (get_move initialAgent ⟨[[2, 4], [4, 2]], 0, 2, 9⟩ 0 0).1).1 =
      StepRes.noValidMoves :=
  ⟨by decide,
    (C7_no_valid_moves initialAgent ⟨[[2, 4], [4, 2]], 0, 2, 9⟩ 0 0
      ⟨2, [[2, 4], [4, 2]], 0⟩ (by decide)).1,
    (C7_no_valid_moves initialAgent ⟨[[2, 4], [4, 2]], 0, 2, 9⟩ 0 0
      ⟨2, [[2, 4], [4, 2]], 0⟩ (by decide)).2.1⟩

/-- C6: (freeze trigger) once the episode counter has reached
`numTraining`, a `final` call increments the counter and zeroes both
alpha and epsilon; (permanence) `get_move` never modifies alpha or
epsilon; (no exploration) with epsilon 0, the epsilon-greedy choice never
takes the uniform-random branch — for every nonnegative draw it returns
the exploitation choice, whatever the random index; (frozen learning)
with alpha 0, `learn` leaves the stored Q-value unchanged while still
incrementing the visit count. -/
theorem C6_freeze :
    (∀ (ag : QLearnAgent) (s : PyGameState),
      ag.episodesSoFar ≥ ag.numTraining →
        (final ag s).alpha = 0 ∧ (final ag s).epsilon = 0 ∧
          (final ag s).episodesSoFar = ag.episodesSoFar + 1) ∧
    (∀ (ag : QLearnAgent) (gs : PyGameState) (r : ℚ) (pick : Nat),
      (get_move ag gs r pick).2.alpha = ag.alpha ∧
        (get_move ag gs r pick).2.epsilon = ag.epsilon) ∧
    (∀ (ag : QLearnAgent) (sf : GameStateFeatures) (moves : List Move)
        (r : ℚ) (pick : Nat), ag.epsilon = 0 → 0 ≤ r →
      chooseAction ag sf moves r pick = exploitChoice ag sf moves) ∧
    (∀ (ag : QLearnAgent) (state : GameStateFeatures) (action : Move)
        (reward : ℚ) (nextState : GameStateFeatures), ag.alpha = 0 →
      getQValue (learn ag state action reward nextState) state action =
        getQValue ag state action ∧
      getCount (learn ag state action reward nextState) state action =
        getCount ag state action + 1) := by
  refine ⟨?_, ?_, ?_, ?_⟩
  · intro ag s hge
    simp only [final]
    split_ifs with h1 h2 h2 <;>
      first
        | exact ⟨rfl, rfl, rfl⟩
        | (simp only [learn] at h2; omega)
  · intro ag gs r pick
    by_cases h1 : (validMoves gs).isEmpty <;>
      by_cases h2 : ag.previousState.isEmpty <;>
        simp [get_move, updateCount, learn, h1, h2]
  · intro ag sf moves r pick heps hr
    rw [chooseAction, heps, if_neg (not_lt.mpr hr)]
  · intro ag state action reward nextState halpha
    constructor
    · simp only [learn, getQValue, halpha]
      rw [dictGet_dictSet_self]
      ring
    · simp only [learn, getCount]
      rw [dictGet_dictSet_self]

def frozenAgent : QLearnAgent :=
  { alpha := 0, epsilon := 0, gamma := 4 / 5, maxAttempts := 30,
    numTraining := 3, episodesSoFar := 3, qTable := [],
    previousState := [], previousAction := [] }

/-- C6 witness: all four freeze properties evaluated on a concrete frozen
agent (counter at `numTraining`, alpha and epsilon already zero). -/
theorem C6_freeze_witness :
    frozenAgent.episodesSoFar ≥ frozenAgent.numTraining ∧
    (final frozenAgent ⟨[[2, 4], [4, 2]], 0, 2, 20⟩).alpha = 0 ∧
    (final frozenAgent ⟨[[2, 4], [4, 2]], 0, 2, 20⟩).epsilon = 0 ∧
    (get_move frozenAgent ⟨[[2, 0], [0, 0]], 0, 2, 21⟩ 0 0).2.epsilon =
      frozenAgent.epsilon ∧
    chooseAction frozenAgent ⟨⟨[[2, 0], [0, 0]], 0, 2, 21⟩⟩
        [Move.left, Move.down] 0 0 =
      exploitChoice frozenAgent ⟨⟨[[2, 0], [0, 0]], 0, 2, 21⟩⟩
        [Move.left, Move.down] ∧
    getQValue (learn frozenAgent ⟨⟨[[2, 0], [0, 0]], 0, 2, 21⟩⟩ Move.left 7
        ⟨⟨[[2, 2], [0, 0]], 4, 2, 22⟩⟩) ⟨⟨[[2, 0], [0, 0]], 0, 2, 21⟩⟩ Move.left =
      getQValue frozenAgent ⟨⟨[[2, 0], [0, 0]], 0, 2, 21⟩⟩ Move.left ∧
    getCount (learn frozenAgent ⟨⟨[[2, 0], [0, 0]], 0, 2, 21⟩⟩ Move.left 7
        ⟨⟨[[2, 2], [0, 0]], 4, 2, 22⟩⟩) ⟨⟨[[2, 0], [0, 0]], 0, 2, 21⟩⟩ Move.left =
      getCount frozenAgent ⟨⟨[[2, 0], [0, 0]], 0, 2, 21⟩⟩ Move.left + 1 :=
  ⟨by decide,
    (C6_freeze.1 frozenAgent _ (by decide)).1,
    (C6_freeze.1 frozenAgent _ (by decide)).2.1,
    (C6_freeze.2.1 frozenAgent _ 0 0).2,
    C6_freeze.2.2.1 frozenAgent _ _ 0 0 (by decide) (by decide),
    (C6_freeze.2.2.2 frozenAgent _ Move.left 7 _ (by decide)).1,
    (C6_freeze.2.2.2 frozenAgent _ Move.left 7 _ (by decide)).2⟩
